import Mathlib

/-!
Verification of the SoRer (schema-on-read) columnar file parser.

The development shallowly embeds the Rust modules `parsers.rs`, `schema.rs`
and `dataframe.rs`: byte slices become `List Nat` (one `Nat` per byte),
files become `List Nat`, `nom` parser results become an explicit result
type with a separate constructor for Rust panics (which, unlike parse
errors, are not caught by `alt`), and fallible operations return `Option`
(with `none` modelling a propagated panic).  Machine `usize` arithmetic is
modelled on `Nat`; the `f64` ceiling division used to size work units is
exact on the values considered here and is modelled as Nat ceiling
division.  The IEEE-754 value produced by `nom`'s `double` is modelled as
the exact rational value of the recognized decimal literal.
-/

/-- Whitespace bytes recognized by `nom::character::complete::multispace0`:
space, tab, carriage return, line feed. -/
def isWS (b : Nat) : Bool :=
  b = 32 || b = 9 || b = 13 || b = 10

/-- `multispace0`: drop leading whitespace, returning the remainder
(this parser never fails and its output value is unused). -/
def multispace0 (i : List Nat) : List Nat :=
  i.dropWhile isWS

/-- `nom::bytes::complete::tag`: consume the exact byte sequence `t`,
returning the remainder on success. -/
def tagP (t : List Nat) (i : List Nat) : Option (List Nat) :=
  if t.isPrefixOf i then some (i.drop t.length) else none

/-- `nom::bytes::complete::is_not`: consume one or more bytes none of which
occur in `bad`; fails when it cannot consume at least one byte. -/
def isNot1 (bad : List Nat) (i : List Nat) : Option (List Nat × List Nat) :=
  let t := i.takeWhile (fun b => !bad.contains b)
  if t.isEmpty then none else some (t, i.drop t.length)

/-- `nom::character::complete::digit1`: consume one or more ASCII decimal
digits. Returns (digits, remainder). -/
def digits1 (i : List Nat) : Option (List Nat × List Nat) :=
  let t := i.takeWhile (fun b => 48 ≤ b && b ≤ 57)
  if t.isEmpty then none else some (t, i.drop t.length)

/-- Numeric value of a list of ASCII digit bytes (how `str::parse`
evaluates a digit string). -/
def natOfDigits (ds : List Nat) : Nat :=
  ds.foldl (fun a d => a * 10 + (d - 48)) 0

/-- ASCII bytes of a Lean string literal (used only to write byte-slice
constants readably). -/
def strBytes (s : String) : List Nat :=
  s.data.map Char.toNat

/-- `i64::MAX`, the largest digit string value `str::parse::<i64>` accepts. -/
def I64_MAX : Nat := 9223372036854775807

/-- `usize::MAX`, the sentinel `from_file` interprets as read-to-EOF. -/
def USIZE_MAX : Nat := 18446744073709551615

/-- The `SoR` data type tags, in source order (`schema.rs`). -/
inductive DataType where
  | String : DataType
  | Float : DataType
  | Int : DataType
  | Bool : DataType
deriving DecidableEq, Repr

/-- A parsed `SoR` cell (`dataframe.rs::Data`).  `Float` carries the exact
rational value of the recognized literal. -/
inductive Data where
  | String : List Nat → Data
  | Int : Int → Data
  | Float : Rat → Data
  | Bool : Bool → Data
  | Null : Data
deriving DecidableEq, Repr

/-- Result of a Rust/nom parser call: success (remaining input and value),
recoverable parse error (`nom`'s `Err`, caught by `alt`), or a Rust panic
(not caught by `alt`, aborts the thread). -/
inductive PResult (α : Type) where
  | ok : List Nat → α → PResult α
  | err : PResult α
  | panic : PResult α
deriving DecidableEq, Repr

/-- Result of parsing one line: a row, a rejected line (Rust `None`), or a
panic. -/
inductive RowResult where
  | row : List Data → RowResult
  | reject : RowResult
  | panic : RowResult
deriving DecidableEq, Repr

/-- `parsers.rs::parse_bool`: `alt((tag("1"), tag("0")))` mapped to a
boolean `Data`. -/
def parse_bool (i : List Nat) : PResult Data :=
  match tagP [49] i with
  | some r => .ok r (Data.Bool true)
  | none =>
    match tagP [48] i with
    | some r => .ok r (Data.Bool false)
    | none => .err

/-- `parsers.rs::parse_int`: optional sign, `digit1`, then
`str::parse::<i64>().unwrap()`.  A digit string whose value exceeds
`i64::MAX` makes `parse` fail and `unwrap` panic. -/
def parse_int (i : List Nat) : PResult Data :=
  let sr : Int × List Nat :=
    match tagP [43] i with
    | some r => (1, r)
    | none =>
      match tagP [45] i with
      | some r => (-1, r)
      | none => (1, i)
  match digits1 sr.2 with
  | none => .err
  | some (ds, r) =>
    let v := natOfDigits ds
    if v ≤ I64_MAX then .ok r (Data.Int (sr.1 * (v : Int))) else .panic

/-- `parsers.rs::parse_string`: either a double-quote delimited run of
non-quote bytes, or an unquoted run containing neither space nor `>`.
No length bound is enforced. -/
def parse_string (i : List Nat) : PResult Data :=
  match tagP [34] i with
  | some r1 =>
    match isNot1 [34] r1 with
    | some (s, r2) =>
      match tagP [34] r2 with
      | some r3 => .ok r3 (Data.String s)
      | none =>
        match isNot1 [32, 62] i with
        | some (s, r) => .ok r (Data.String s)
        | none => .err
    | none =>
      match isNot1 [32, 62] i with
      | some (s, r) => .ok r (Data.String s)
      | none => .err
  | none =>
    match isNot1 [32, 62] i with
    | some (s, r) => .ok r (Data.String s)
    | none => .err

/-- `parsers.rs::parse_null`: `multispace0` mapped to `Null`
(never fails). -/
def parse_null (i : List Nat) : PResult Data :=
  .ok (multispace0 i) Data.Null

/-- Fractional part after the decimal point:
`opt(pair(char('.'), opt(digit1)))` of `nom`'s `recognize_float`. -/
def floatFrac (i : List Nat) : List Nat × List Nat :=
  match tagP [46] i with
  | none => ([], i)
  | some r =>
    match digits1 r with
    | some (fs, r2) => (fs, r2)
    | none => ([], r)

/-- Optional exponent `(e|E) sign? digit1` of `nom`'s `recognize_float`;
consumes nothing when the digits are missing (`opt` of the whole tuple). -/
def floatExp (i : List Nat) : Int × List Nat :=
  match (tagP [101] i).orElse (fun _ => tagP [69] i) with
  | none => (0, i)
  | some r =>
    let sr : Int × List Nat :=
      match tagP [43] r with
      | some r2 => (1, r2)
      | none =>
        match tagP [45] r with
        | some r2 => (-1, r2)
        | none => (1, r)
    match digits1 sr.2 with
    | none => (0, i)
    | some (es, r2) => (sr.1 * (natOfDigits es : Int), r2)

/-- Powers of ten on `Nat`, written with explicit recursion so that proofs
can evaluate it. -/
def pow10n (k : Nat) : Nat :=
  Nat.rec (motive := fun _ => Nat) 1 (fun _ ih => ih * 10) k

/-- The exact rational value of a recognized decimal literal with sign `s`,
integer digits `ds`, fraction digits `fs` and decimal exponent `e`
(`sign * ds.fs * 10^e`), built with core `mkRat` so the kernel can reduce
it. -/
def floatVal (s : Int) (ds fs : List Nat) (e : Int) : Rat :=
  let num0 : Int :=
    s * ((natOfDigits ds : Int) * (pow10n fs.length : Int) + (natOfDigits fs : Int))
  mkRat (num0 * (pow10n e.toNat : Int)) (pow10n fs.length * pow10n (-e).toNat)

/-- `parsers.rs::parse_float`, i.e. `nom`'s `double`: sign, then either
`digit1 (. digit1?)?` or `. digit1`, then an optional exponent.  The value
is the exact rational denoted by the literal. -/
def parse_float (i : List Nat) : PResult Data :=
  let sr : Int × List Nat :=
    match tagP [43] i with
    | some r => (1, r)
    | none =>
      match tagP [45] i with
      | some r => (-1, r)
      | none => (1, i)
  match digits1 sr.2 with
  | some (ds, r1) =>
    let fr := floatFrac r1
    let ex := floatExp fr.2
    .ok ex.2 (Data.Float (floatVal sr.1 ds fr.1 ex.1))
  | none =>
    match tagP [46] sr.2 with
    | none => .err
    | some r1 =>
      match digits1 r1 with
      | none => .err
      | some (fs, r2) =>
        let ex := floatExp r2
        .ok ex.2 (Data.Float (floatVal sr.1 [] fs ex.1))

/-- `delimited(terminated(tag("<"), multispace0), p, preceded(multispace0,
tag(">")))`: the common shape of every `parse_delimited_*` function. -/
def delimitedField (p : List Nat → PResult Data) (i : List Nat) : PResult Data :=
  match tagP [60] i with
  | none => .err
  | some r1 =>
    match p (multispace0 r1) with
    | .err => .err
    | .panic => .panic
    | .ok r2 d =>
      match tagP [62] (multispace0 r2) with
      | none => .err
      | some r3 => .ok r3 d

/-- `parsers.rs::parse_delimited_null`. -/
def parse_delimited_null (i : List Nat) : PResult Data :=
  delimitedField parse_null i

/-- `parsers.rs::parse_delimited_bool`. -/
def parse_delimited_bool (i : List Nat) : PResult Data :=
  delimitedField parse_bool i

/-- `parsers.rs::parse_delimited_int`. -/
def parse_delimited_int (i : List Nat) : PResult Data :=
  delimitedField parse_int i

/-- `parsers.rs::parse_delimited_float`. -/
def parse_delimited_float (i : List Nat) : PResult Data :=
  delimitedField parse_float i

/-- `parsers.rs::parse_delimited_string`. -/
def parse_delimited_string (i : List Nat) : PResult Data :=
  delimitedField parse_string i

/-- `parsers.rs::parse_field`: `alt` over the five delimited forms in the
source order Null, Bool, Int, Float, String.  `alt` retries on `err` but a
panic propagates. -/
def parse_field (i : List Nat) : PResult Data :=
  match parse_delimited_null i with
  | .ok r d => .ok r d
  | .panic => .panic
  | .err =>
    match parse_delimited_bool i with
    | .ok r d => .ok r d
    | .panic => .panic
    | .err =>
      match parse_delimited_int i with
      | .ok r d => .ok r d
      | .panic => .panic
      | .err =>
        match parse_delimited_float i with
        | .ok r d => .ok r d
        | .panic => .panic
        | .err => parse_delimited_string i

/-- One iteration of `many0(delimited(multispace0, parse_field,
multispace0))`: skip whitespace, parse a field, skip whitespace. -/
def spacedField (i : List Nat) : PResult Data :=
  match parse_field (multispace0 i) with
  | .ok r d => .ok (multispace0 r) d
  | .err => .err
  | .panic => .panic

/-- The `many0` loop of `parsers.rs::parse_line`.  `nom`'s `many0` stops at
the first recoverable error and errors out itself when an iteration
succeeds without consuming input (infinite-loop guard; unreachable here
since a field always consumes at least one byte).  The fuel argument,
always called with `i.length + 1`, bounds the iteration count: each
iteration consumes at least one byte, so the fuel is never exhausted. -/
def manyFields : Nat → List Nat → PResult (List Data)
  | 0, _ => .err
  | fuel + 1, i =>
    match spacedField i with
    | .panic => .panic
    | .err => .ok i []
    | .ok r d =>
      if r.length < i.length then
        match manyFields fuel r with
        | .ok r2 ds => .ok r2 (d :: ds)
        | x => x
      else .err

/-- `parsers.rs::parse_line`: run the `many0` loop (whose result the source
unwraps, so a `many0` error would panic) and succeed iff no input
remains. -/
def parse_line (i : List Nat) : RowResult :=
  match manyFields (i.length + 1) i with
  | .panic => .panic
  | .err => .panic
  | .ok rem ds => if rem.isEmpty then .row ds else .reject

/-- The `match &column_type` arms of `parsers.rs::parse_line_with_schema`:
which delimited parser a column type selects. -/
def parse_for_type : DataType → List Nat → PResult Data
  | DataType.String => parse_delimited_string
  | DataType.Float => parse_delimited_float
  | DataType.Int => parse_delimited_int
  | DataType.Bool => parse_delimited_bool

/-- The per-column loop of `parsers.rs::parse_line_with_schema`: skip
whitespace, emit `Null` when the input is exhausted, else try the explicit
`<>` form, else the parser for the column's type; a type mismatch rejects
the whole line.  Leftover input after the last column is ignored. -/
def plws_go : List DataType → List Nat → List Data → RowResult
  | [], _, acc => .row acc
  | t :: ts, i, acc =>
    let rem := multispace0 i
    if rem.isEmpty then plws_go ts rem (acc ++ [Data.Null])
    else
      match parse_delimited_null rem with
      | .ok r d => plws_go ts r (acc ++ [d])
      | .panic => .panic
      | .err =>
        match parse_for_type t rem with
        | .ok r d => plws_go ts r (acc ++ [d])
        | .panic => .panic
        | .err => .reject

/-- `parsers.rs::parse_line_with_schema`: reject the empty slice, then run
the per-column loop. -/
def parse_line_with_schema (i : List Nat) (schema : List DataType) : RowResult :=
  if i.isEmpty then .reject else plws_go schema i []

/-- `schema.rs::get_dominant_data_type`: the dominance lattice fold step,
with the source's match-arm order. -/
def get_dominant_data_type (cur : DataType) (other : Data) : DataType :=
  match cur, other with
  | _, Data.String _ => DataType.String
  | DataType.String, _ => DataType.String
  | _, Data.Float _ => DataType.Float
  | DataType.Float, _ => DataType.Float
  | _, Data.Int _ => DataType.Int
  | DataType.Int, _ => DataType.Int
  | _, _ => DataType.Bool

/-- The width-selection loop of `schema.rs::infer_schema_from_reader`:
keep the parsed rows of the widest width seen so far, resetting when a
wider row appears; unparseable lines are skipped; a panic while parsing
propagates. -/
def schemaSelect : List (List Nat) → Nat → List (List Data) → Option (Nat × List (List Data))
  | [], n, acc => some (n, acc)
  | l :: ls, n, acc =>
    match parse_line l with
    | .panic => none
    | .reject => schemaSelect ls n acc
    | .row ds =>
      if ds.length > n then schemaSelect ls ds.length [ds]
      else if ds.length = n then schemaSelect ls n (acc ++ [ds])
      else schemaSelect ls n acc

/-- The per-column type fold of `schema.rs::infer_schema_from_reader`,
including the early exit once the type reaches `String`.  Retained rows all
have the selected width, so the `Null` default of `getD` is never used
(it mirrors the source's infallible `row[i]` indexing). -/
def columnTypeFold (t : DataType) (rows : List (List Data)) (i : Nat) : DataType :=
  match rows with
  | [] => t
  | r :: rs =>
    let t2 := get_dominant_data_type t (r.getD i Data.Null)
    if t2 = DataType.String then t2 else columnTypeFold t2 rs i

/-- `schema.rs::infer_schema_from_reader`, with the `BufRead` abstracted to
the list of the file's lines (newline-stripped, as `reader.lines()`
yields them).  The `for (i, line) in reader.lines().enumerate()` loop
breaks at `i == 500`, so exactly the first 500 lines are examined. -/
def infer_schema_from_reader (lines : List (List Nat)) : Option (List DataType) :=
  match schemaSelect (lines.take 500) 0 [] with
  | none => none
  | some (n, rows) =>
    some ((List.range n).map (fun i => columnTypeFold DataType.Bool rows i))

/-- `dataframe.rs::Column`: a homogeneously typed column of optional
cells. -/
inductive Column where
  | Int : List (Option Int) → Column
  | Bool : List (Option Bool) → Column
  | Float : List (Option Rat) → Column
  | String : List (Option (List Nat)) → Column
deriving DecidableEq, Repr

/-- `dataframe.rs::Column::len`. -/
def colLen : Column → Nat
  | Column.Int c => c.length
  | Column.Bool c => c.length
  | Column.Float c => c.length
  | Column.String c => c.length

/-- The variant tag of a column. -/
def colTag : Column → DataType
  | Column.Int _ => DataType.Int
  | Column.Bool _ => DataType.Bool
  | Column.Float _ => DataType.Float
  | Column.String _ => DataType.String

/-- `dataframe.rs::init_columnar`: one empty column per schema entry, of
the matching variant. -/
def init_columnar (schema : List DataType) : List Column :=
  schema.map (fun t =>
    match t with
    | DataType.Bool => Column.Bool []
    | DataType.Int => Column.Int []
    | DataType.Float => Column.Float []
    | DataType.String => Column.String [])

/-- Pushing one parsed cell onto one column (the `match (d, col)` arms of
`read_chunk`); a variant mismatch is the source's `panic!`, modelled as
`none`. -/
def pushCell (d : Data) (c : Column) : Option Column :=
  match d, c with
  | Data.Bool b, Column.Bool v => some (Column.Bool (v ++ [some b]))
  | Data.Int n, Column.Int v => some (Column.Int (v ++ [some n]))
  | Data.Float f, Column.Float v => some (Column.Float (v ++ [some f]))
  | Data.String s, Column.String v => some (Column.String (v ++ [some s]))
  | Data.Null, Column.Bool v => some (Column.Bool (v ++ [none]))
  | Data.Null, Column.Int v => some (Column.Int (v ++ [none]))
  | Data.Null, Column.Float v => some (Column.Float (v ++ [none]))
  | Data.Null, Column.String v => some (Column.String (v ++ [none]))
  | _, _ => none

/-- `read_chunk`'s `data.iter().zip(parsed_data.iter_mut())` push loop:
cells are pushed pairwise; the zip stops at the shorter side, leaving any
remaining columns untouched. -/
def pushRow : List Data → List Column → Option (List Column)
  | [], cs => some cs
  | _ :: _, [] => some []
  | d :: ds, c :: cs =>
    match pushCell d c with
    | none => none
    | some c2 =>
      match pushRow ds cs with
      | none => none
      | some cs2 => some (c2 :: cs2)

/-- `BufRead::read_until(b'\n')` starting at the head of `l`: the bytes up
to and including the first newline, or all remaining bytes at EOF. -/
def readLine : List Nat → List Nat
  | [] => []
  | b :: bs => if b = 10 then [b] else b :: readLine bs

/-- The line a reader positioned at byte `pos` of `file` reads with
`read_until(b'\n')`. -/
def lineAt (file : List Nat) (pos : Nat) : List Nat :=
  readLine (file.drop pos)

/-- The read loop of `dataframe.rs::read_chunk`: read a line, add its
length to the running byte count, stop (discarding the just-read line)
when the line is empty or the count reaches the assigned length; otherwise
parse it against the schema, dropping rejected lines and pushing parsed
rows cellwise.  A panic (parse panic or column-variant mismatch) is
`none`.  Each iteration consumes at least one byte, so the fuel — always
the file length plus one — is never exhausted; fuel 0 is mapped to `none`.
-/
def chunkLoop (schema : List DataType) (file : List Nat) :
    Nat → Nat → Nat → Nat → List Column → Option (List Column)
  | 0, _, _, _, _ => none
  | fuel + 1, pos, soFar, len, acc =>
    let line := lineAt file pos
    let soFar2 := soFar + line.length
    if line.length = 0 || soFar2 ≥ len then some acc
    else
      match parse_line_with_schema line schema with
      | .panic => none
      | .reject => chunkLoop schema file fuel (pos + line.length) soFar2 len acc
      | .row ds =>
        match pushRow ds acc with
        | none => none
        | some acc2 => chunkLoop schema file fuel (pos + line.length) soFar2 len acc2

/-- `dataframe.rs::read_chunk`: seek to `frm`; when `frm ≠ 0` read and
discard one line, counting its bytes; then run the read loop on an empty
columnar table. -/
def read_chunk (schema : List DataType) (file : List Nat) (frm len : Nat) :
    Option (List Column) :=
  let skip := if frm ≠ 0 then (lineAt file frm).length else 0
  chunkLoop schema file (file.length + 1) (frm + skip) skip len (init_columnar schema)

/-- The planning loop of `dataframe.rs::from_file`: unit `i` starts at
`frm + i·step` with base length `step`, and every unit except the last is
extended by the length of the line remainder found at the next unit's
start, plus one. -/
def workUnits (file : List Nat) : Nat → Nat → Nat → List (Nat × Nat)
  | _, _, 0 => []
  | s, step, 1 => [(s, step)]
  | s, step, n + 2 =>
    let nxt := s + step
    (s, step + (lineAt file nxt).length + 1) :: workUnits file nxt step (n + 1)

/-- Appending one worker's column onto the accumulated column
(`from_file`'s merge `match`); a variant mismatch is the source's
`panic!`, modelled as `none`. -/
def appendCol (a b : Column) : Option Column :=
  match a, b with
  | Column.Bool v1, Column.Bool v2 => some (Column.Bool (v1 ++ v2))
  | Column.Int v1, Column.Int v2 => some (Column.Int (v1 ++ v2))
  | Column.Float v1, Column.Float v2 => some (Column.Float (v1 ++ v2))
  | Column.String v1, Column.String v2 => some (Column.String (v1 ++ v2))
  | _, _ => none

/-- Merging one worker's partial table into the accumulated table:
`parsed_data.iter_mut().zip(x.iter_mut())` appends columnwise and stops at
the shorter side, leaving remaining accumulated columns untouched. -/
def mergeCols : List Column → List Column → Option (List Column)
  | [], _ => some []
  | cs, [] => some cs
  | a :: as_, b :: bs =>
    match appendCol a b with
    | none => none
    | some c =>
      match mergeCols as_ bs with
      | none => none
      | some rest => some (c :: rest)

/-- The join-and-merge loop of `from_file`: fold every worker's result
(`none` models a worker panic, re-raised by `join().unwrap()`) into the
accumulated table. -/
def mergeAll : List Column → List (Option (List Column)) → Option (List Column)
  | acc, [] => some acc
  | acc, c :: cs =>
    match c with
    | none => none
    | some x =>
      match mergeCols acc x with
      | none => none
      | some acc2 => mergeAll acc2 cs

/-- `dataframe.rs::from_file`: compute the byte budget (`len =
usize::MAX` means file size minus `frm`), the per-worker step (the
source's `(num_chars / num_threads as f64).ceil()`, exact on these
sizes), plan the work units, run `read_chunk` per unit, and merge the
partial tables in unit order. -/
def from_file (file : List Nat) (schema : List DataType) (frm len n : Nat) :
    Option (List Column) :=
  let numChars := if len = USIZE_MAX then file.length - frm else len
  let step := (numChars + n - 1) / n
  let ws := workUnits file frm step n
  mergeAll (init_columnar schema) (ws.map (fun w => read_chunk schema file w.1 w.2))

set_option maxRecDepth 8000

/-! ## Helper lemmas -/

/-- `takeWhile` keeps a list all of whose elements satisfy the predicate. -/
theorem takeWhile_all {α : Type} (p : α → Bool) :
    ∀ (l : List α), (∀ a ∈ l, p a = true) → l.takeWhile p = l
  | [], _ => rfl
  | a :: l, h => by
    have ha := h a (by simp)
    simp [List.takeWhile, ha, takeWhile_all p l (fun x hx => h x (by simp [hx]))]

/-- `is_not` consumes the whole input when no byte is in the forbidden
set (and the input is nonempty). -/
theorem isNot1_all (bad : List Nat) (l : List Nat) (hne : l ≠ [])
    (hall : ∀ a ∈ l, (!bad.contains a) = true) : isNot1 bad l = some (l, []) := by
  have htw := takeWhile_all (fun b => !bad.contains b) l hall
  simp only [isNot1]
  rw [htw, List.drop_length]
  rcases l with _ | ⟨a, l⟩
  · exact absurd rfl hne
  · rfl

/-- The per-column loop of `parse_line_with_schema` pads every remaining
column with `Null` once the input is exhausted. -/
theorem plws_go_nil : ∀ (ts : List DataType) (acc : List Data),
    plws_go ts [] acc = RowResult.row (acc ++ List.replicate ts.length Data.Null)
  | [], acc => by simp [plws_go]
  | t :: ts, acc => by
    have ih := plws_go_nil ts (acc ++ [Data.Null])
    simp only [plws_go, multispace0, List.dropWhile_nil, List.isEmpty_nil, if_true] at ih ⊢
    rw [ih]
    simp [List.replicate_succ]

/-- The width-selection loop ignores lines the line parser rejects. -/
theorem schemaSelect_all_reject :
    ∀ (ls : List (List Nat)) (n : Nat) (acc : List (List Data)),
      (∀ l ∈ ls, parse_line l = RowResult.reject) → schemaSelect ls n acc = some (n, acc)
  | [], _, _, _ => rfl
  | l :: ls, n, acc, h => by
    have h1 := h l (by simp)
    simp only [schemaSelect, h1]
    exact schemaSelect_all_reject ls n acc (fun x hx => h x (by simp [hx]))

/-- Indexing with a `Null` default into an all-`Null` row yields `Null`. -/
theorem getD_all_null :
    ∀ (r : List Data) (i : Nat), (∀ d ∈ r, d = Data.Null) →
      r[i]?.getD Data.Null = Data.Null
  | [], i, _ => by cases i <;> rfl
  | d :: ds, 0, h => by simpa using h d (by simp)
  | d :: ds, i + 1, h => by
    simpa using getD_all_null ds i (fun x hx => h x (by simp [hx]))

/-- Constructor tests on `Data`, used to phrase the claimed dominance
rule. -/
def dataIsString : Data → Bool
  | Data.String _ => true
  | _ => false

def dataIsFloat : Data → Bool
  | Data.Float _ => true
  | _ => false

def dataIsInt : Data → Bool
  | Data.Int _ => true
  | _ => false

/-- The dominance rule exactly as the specification words it: String if
either side is String, else Float if either is Float, else Int if either
is Int, else Bool. -/
def dominateSpec (t : DataType) (x : Data) : DataType :=
  if t == DataType.String || dataIsString x then DataType.String
  else if t == DataType.Float || dataIsFloat x then DataType.Float
  else if t == DataType.Int || dataIsInt x then DataType.Int
  else DataType.Bool

/-! ## Claim theorems (parser and inference) -/

/-- C3: the unschematized field parser tries Null, Bool, Int, Float,
String in that order, so payload `1` is Bool(true), `12` is Int(12), `1.2`
is Float(1.2) and `hello` is String("hello"); and `parse_line` yields a
row exactly when the `many0` field loop consumes the whole slice,
rejecting the line otherwise. -/
theorem c3_field_precedence :
    parse_field (strBytes "<1>") = PResult.ok [] (Data.Bool true) ∧
    parse_field (strBytes "<12>") = PResult.ok [] (Data.Int 12) ∧
    parse_field (strBytes "<1.2>") = PResult.ok [] (Data.Float (mkRat 6 5)) ∧
    mkRat 6 5 = (6 / 5 : Rat) ∧
    parse_field (strBytes "<hello>") = PResult.ok [] (Data.String (strBytes "hello")) ∧
    (∀ i rem ds, manyFields (i.length + 1) i = PResult.ok rem ds →
      ((rem = [] → parse_line i = RowResult.row ds) ∧
       (rem ≠ [] → parse_line i = RowResult.reject))) := by
  refine ⟨by decide, by decide, by decide, by norm_num, by decide, ?_⟩
  intro i rem ds h
  constructor <;> intro hrem <;> simp [parse_line, h, hrem]

/-- Witness for C3 at a concrete input: a slice with unconsumed bytes is
rejected. -/
theorem c3_field_precedence_witness :
    parse_line (strBytes "x") = RowResult.reject :=
  (c3_field_precedence.2.2.2.2.2 (strBytes "x") (strBytes "x") [] (by decide)).2 (by decide)

/-- C7 (code bug): a digit payload just above `i64::MAX` makes
`parse_int`'s `unwrap` panic instead of failing the parse, so the whole
line parse panics; in-range payloads (with sign and leading zeros) parse
to the signed value. -/
theorem c7_int_overflow_panics :
    parse_delimited_int (strBytes "<9223372036854775808>") = PResult.panic ∧
    parse_line (strBytes "<9223372036854775808>") = RowResult.panic ∧
    parse_delimited_int (strBytes "<+42>") = PResult.ok [] (Data.Int 42) ∧
    parse_delimited_int (strBytes "<-42>") = PResult.ok [] (Data.Int (-42)) ∧
    parse_delimited_int (strBytes "<007>") = PResult.ok [] (Data.Int 7) :=
  ⟨by decide, by decide, by decide, by decide, by decide⟩

/-- C8 counterexample: a 256-byte string payload is accepted by the string
field parser (bare and delimited), so no 255-byte bound is enforced. -/
theorem c8_counterexample :
    255 < (List.replicate 256 97).length ∧
    parse_string (List.replicate 256 97) =
      PResult.ok [] (Data.String (List.replicate 256 97)) ∧
    parse_delimited_string (60 :: (List.replicate 256 97 ++ [62])) =
      PResult.ok [] (Data.String (List.replicate 256 97)) :=
  ⟨by decide, by decide, by decide⟩

/-- C8 (amended): the string field parser enforces no length bound at all:
an unquoted run of any positive length parses to a string of exactly that
length. -/
theorem c8_no_length_bound (n : Nat) (h : 1 ≤ n) :
    parse_string (List.replicate n 97) =
      PResult.ok [] (Data.String (List.replicate n 97)) := by
  obtain ⟨m, rfl⟩ : ∃ m, n = m + 1 := ⟨n - 1, by omega⟩
  have hall : ∀ a ∈ List.replicate (m + 1) (97 : Nat),
      (!([32, 62].contains a)) = true := by
    intro a ha
    rw [List.eq_of_mem_replicate ha]
    decide
  have h1 : isNot1 [32, 62] (List.replicate (m + 1) 97) =
      some (List.replicate (m + 1) 97, []) :=
    isNot1_all _ _ (by simp) hall
  have htag : tagP [34] (List.replicate (m + 1) 97) = none := by
    rw [List.replicate_succ]
    simp [tagP, List.isPrefixOf]
  simp only [parse_string, htag, h1]

/-- Witness for C8's amended theorem at length 300. -/
theorem c8_no_length_bound_witness :
    1 ≤ 300 ∧
    parse_string (List.replicate 300 97) =
      PResult.ok [] (Data.String (List.replicate 300 97)) :=
  ⟨by decide, c8_no_length_bound 300 (by decide)⟩

/-- C4 counterexample: on a file of 501 lines whose first 500 lines are
unparseable and whose final line is a valid two-field row of strings, the
inferred schema is empty — the final 'end band' line is never sampled, so
the candidates do not come from start, middle and end bands. -/
theorem c4_counterexample :
    infer_schema_from_reader
        (List.replicate 500 (strBytes "x") ++ [strBytes "<h><h>"]) = some [] ∧
    parse_line (strBytes "<h><h>") =
      RowResult.row [Data.String [104], Data.String [104]] := by
  constructor
  · have htake : (List.replicate 500 (strBytes "x") ++ [strBytes "<h><h>"]).take 500
        = List.replicate 500 (strBytes "x") := by
      rw [List.take_append_of_le_length (by simp)]
      simp
    have hrej : ∀ l ∈ List.replicate 500 (strBytes "x"),
        parse_line l = RowResult.reject := by
      intro l hl
      rw [List.eq_of_mem_replicate hl]
      decide
    unfold infer_schema_from_reader
    rw [htake, schemaSelect_all_reject _ _ _ hrej]
    rfl
  · decide

/-- C4 (amended): `infer_schema` draws its candidate lines from the first
500 lines of the file only — the inferred schema never depends on any line
past the 500th, so there is no middle or end band. -/
theorem c4_prefix_only (lines : List (List Nat)) :
    infer_schema_from_reader lines = infer_schema_from_reader (lines.take 500) := by
  unfold infer_schema_from_reader
  rw [List.take_take, min_self]

/-- C6: the dominance fold returns String if either side is String, else
Float if either is Float, else Int if either is Int, else Bool; a Null
cell leaves the running type unchanged; and a column whose retained
sampled cells are all Null folds (from the starting value Bool) to
Bool. -/
theorem c6_dominance :
    (∀ t x, get_dominant_data_type t x = dominateSpec t x) ∧
    (∀ t, get_dominant_data_type t Data.Null = t) ∧
    (∀ rows i, (∀ r ∈ rows, ∀ d ∈ r, d = Data.Null) →
      columnTypeFold DataType.Bool rows i = DataType.Bool) := by
  refine ⟨?_, ?_, ?_⟩
  · intro t x
    cases t <;> cases x <;> rfl
  · intro t
    cases t <;> rfl
  · intro rows
    induction rows with
    | nil => intro i _; rfl
    | cons r rs ih =>
      intro i h
      have hr : r[i]?.getD Data.Null = Data.Null :=
        getD_all_null r i (fun d hd => h r (by simp) d hd)
      have hrs := ih i (fun x hx d hd => h x (by simp [hx]) d hd)
      simp [columnTypeFold, hr, get_dominant_data_type, hrs]

/-- Witness for C6 at a concrete all-Null sample. -/
theorem c6_dominance_witness :
    columnTypeFold DataType.Bool [[Data.Null], [Data.Null]] 0 = DataType.Bool :=
  c6_dominance.2.2 [[Data.Null], [Data.Null]] 0 (by decide)

/-- C10: a nonempty whitespace-only slice (such as the bare newline a
blank file line produces) is not rejected: it parses to a full row of
Nulls, and inside a chunk such a line contributes an all-Null row to the
table; only the zero-length slice is rejected. -/
theorem c10_blank_line_null_row :
    (∀ schema i, schema ≠ ([] : List DataType) → i ≠ ([] : List Nat) →
      (∀ b ∈ i, isWS b = true) →
      parse_line_with_schema i schema =
        RowResult.row (List.replicate schema.length Data.Null)) ∧
    (∀ schema, parse_line_with_schema [] schema = RowResult.reject) ∧
    read_chunk [DataType.Bool] (strBytes "<1>\n\n<0>\n") 0 USIZE_MAX =
      some [Column.Bool [some true, none, some false]] := by
  refine ⟨?_, ?_, by decide⟩
  · intro schema i hs hi hws
    have hms : multispace0 i = [] := by
      simp only [multispace0, List.dropWhile_eq_nil_iff]
      intro x hx
      exact hws x hx
    unfold parse_line_with_schema
    rw [if_neg (by simp [List.isEmpty_iff, hi])]
    cases schema with
    | nil => exact absurd rfl hs
    | cons t ts =>
      simp only [plws_go, hms, List.isEmpty_nil, if_true]
      rw [plws_go_nil]
      simp [List.replicate_succ]
  · intro schema
    simp [parse_line_with_schema]

/-- Witness for C10 at a concrete blank line and two-column schema. -/
theorem c10_blank_line_null_row_witness :
    parse_line_with_schema [10] [DataType.Bool, DataType.Int] =
      RowResult.row [Data.Null, Data.Null] :=
  c10_blank_line_null_row.1 [DataType.Bool, DataType.Int] [10]
    (by decide) (by decide) (by decide)

/-- C5: the schematized line parser rejects the empty slice; once the
input is exhausted it emits Null for every remaining column; a field that
is not an explicit null and fails to parse as the column's type rejects
the whole line; and once all schema columns are filled any leftover bytes
are discarded with the line still accepted. -/
theorem c5_schema_line_shape :
    (∀ schema, parse_line_with_schema [] schema = RowResult.reject) ∧
    (∀ ts acc, plws_go ts [] acc =
      RowResult.row (acc ++ List.replicate ts.length Data.Null)) ∧
    (∀ t ts i acc, multispace0 i ≠ [] →
      parse_delimited_null (multispace0 i) = PResult.err →
      parse_for_type t (multispace0 i) = PResult.err →
      plws_go (t :: ts) i acc = RowResult.reject) ∧
    (∀ i acc, plws_go [] i acc = RowResult.row acc) := by
  refine ⟨fun schema => by simp [parse_line_with_schema], plws_go_nil, ?_,
    fun i acc => rfl⟩
  intro t ts i acc h1 h2 h3
  simp only [plws_go, List.isEmpty_iff, h1, if_false, h2, h3]

/-- Witness for C5 at a concrete type-mismatched field. -/
theorem c5_schema_line_shape_witness :
    plws_go [DataType.Int] (strBytes "<hi>") [] = RowResult.reject :=
  c5_schema_line_shape.2.2.1 DataType.Int [] (strBytes "<hi>") []
    (by decide) (by decide) (by decide)

/-- The four-byte file consisting of the single newline-terminated line
`<1>`. -/
def file4 : List Nat := strBytes "<1>\n"

/-- A twelve-byte file of three newline-terminated boolean lines. -/
def file12 : List Nat := strBytes "<1>\n<0>\n<1>\n"

/-- C1 (code bug): with one worker over the whole file, `from_file`
returns an empty table even though the file's single line is a valid row
whose terminating newline (byte 3) lies inside the window `[0, 4)` — the
final work unit's length is never extended, so the worker reads the last
line, reaches `so_far ≥ len`, and discards it instead of parsing it. -/
theorem c1_last_line_dropped :
    from_file file4 [DataType.Bool] 0 USIZE_MAX 1 = some [Column.Bool []] ∧
    parse_line_with_schema (lineAt file4 0) [DataType.Bool] =
      RowResult.row [Data.Bool true] ∧
    lineAt file4 0 = file4 ∧ file4.length = 4 :=
  ⟨by decide, by decide, by decide, by decide⟩

/-- C2 (code bug): with `from = 0` and `len = usize::MAX` the result of
`from_file` depends on the worker count: on a twelve-byte three-line file,
two workers produce two rows while five workers produce all three — the
file's last line is dropped exactly when it falls to the final,
unextended work unit. -/
theorem c2_workers_change_result :
    from_file file12 [DataType.Bool] 0 USIZE_MAX 2 =
      some [Column.Bool [some true, some false]] ∧
    from_file file12 [DataType.Bool] 0 USIZE_MAX 5 =
      some [Column.Bool [some true, some false, some true]] :=
  ⟨by decide, by decide⟩

/-! ## Table-shape invariant (C9) -/

/-- The variant tag a cell carries; `none` for `Null`. -/
def dataTag : Data → Option DataType
  | Data.String _ => some DataType.String
  | Data.Int _ => some DataType.Int
  | Data.Float _ => some DataType.Float
  | Data.Bool _ => some DataType.Bool
  | Data.Null => none

/-- A cell is storable in a column of type `t`: it is `Null` or carries
exactly the variant `t`. -/
def cellOk (d : Data) (t : DataType) : Prop :=
  d = Data.Null ∨ dataTag d = some t

/-- Table shape invariant: one column per schema entry, each of the
variant its schema type mandates, all of length `n`. -/
def ColsOk (schema : List DataType) (n : Nat) (cs : List Column) : Prop :=
  List.Forall₂ (fun t c => colTag c = t ∧ colLen c = n) schema cs

theorem init_columnar_ok : ∀ (schema : List DataType),
    ColsOk schema 0 (init_columnar schema)
  | [] => List.Forall₂.nil
  | t :: ts => by
    refine List.Forall₂.cons ?_ (init_columnar_ok ts)
    cases t <;> exact ⟨rfl, rfl⟩

theorem parse_null_val (i r : List Nat) (d : Data)
    (h : parse_null i = PResult.ok r d) : d = Data.Null := by
  unfold parse_null at h
  injection h with h1 h2
  exact h2.symm

theorem parse_bool_val (i r : List Nat) (d : Data)
    (h : parse_bool i = PResult.ok r d) : ∃ b, d = Data.Bool b := by
  unfold parse_bool at h
  cases h1 : tagP [49] i with
  | some r1 =>
    simp only [h1] at h
    injection h with ha hb
    exact ⟨true, hb.symm⟩
  | none =>
    simp only [h1] at h
    cases h0 : tagP [48] i with
    | some r0 =>
      simp only [h0] at h
      injection h with ha hb
      exact ⟨false, hb.symm⟩
    | none => simp only [h0] at h; simp at h

theorem parse_int_val (i r : List Nat) (d : Data)
    (h : parse_int i = PResult.ok r d) : ∃ n, d = Data.Int n := by
  unfold parse_int at h
  cases hd : digits1 (match tagP [43] i with
      | some r => ((1 : Int), r)
      | none =>
        match tagP [45] i with
        | some r => ((-1 : Int), r)
        | none => (1, i) : Int × List Nat).2 with
  | none => simp only [hd] at h; simp at h
  | some p =>
    obtain ⟨ds, r2⟩ := p
    simp only [hd] at h
    by_cases hle : natOfDigits ds ≤ I64_MAX
    · rw [if_pos hle] at h
      injection h with ha hb
      exact ⟨_, hb.symm⟩
    · rw [if_neg hle] at h
      simp at h

theorem parse_float_val (i r : List Nat) (d : Data)
    (h : parse_float i = PResult.ok r d) : ∃ q, d = Data.Float q := by
  unfold parse_float at h
  cases hd : digits1 (match tagP [43] i with
      | some r => ((1 : Int), r)
      | none =>
        match tagP [45] i with
        | some r => ((-1 : Int), r)
        | none => (1, i) : Int × List Nat).2 with
  | some p =>
    obtain ⟨ds, r1⟩ := p
    simp only [hd] at h
    injection h with ha hb
    exact ⟨_, hb.symm⟩
  | none =>
    simp only [hd] at h
    cases h46 : tagP [46] (match tagP [43] i with
        | some r => ((1 : Int), r)
        | none =>
          match tagP [45] i with
          | some r => ((-1 : Int), r)
          | none => (1, i) : Int × List Nat).2 with
    | none => simp only [h46] at h; simp at h
    | some r1 =>
      simp only [h46] at h
      cases hfs : digits1 r1 with
      | none => simp only [hfs] at h; simp at h
      | some p =>
        obtain ⟨fs, r2⟩ := p
        simp only [hfs] at h
        injection h with ha hb
        exact ⟨_, hb.symm⟩

theorem parse_string_val (i r : List Nat) (d : Data)
    (h : parse_string i = PResult.ok r d) : ∃ s, d = Data.String s := by
  unfold parse_string at h
  cases h34 : tagP [34] i with
  | some r1 =>
    simp only [h34] at h
    cases hq : isNot1 [34] r1 with
    | some p =>
      obtain ⟨s, r2⟩ := p
      simp only [hq] at h
      cases h34b : tagP [34] r2 with
      | some r3 =>
        simp only [h34b] at h
        injection h with ha hb
        exact ⟨_, hb.symm⟩
      | none =>
        simp only [h34b] at h
        cases hu : isNot1 [32, 62] i with
        | some p2 =>
          obtain ⟨s2, r4⟩ := p2
          simp only [hu] at h
          injection h with ha hb
          exact ⟨_, hb.symm⟩
        | none => simp only [hu] at h; simp at h
    | none =>
      simp only [hq] at h
      cases hu : isNot1 [32, 62] i with
      | some p2 =>
        obtain ⟨s2, r4⟩ := p2
        simp only [hu] at h
        injection h with ha hb
        exact ⟨_, hb.symm⟩
      | none => simp only [hu] at h; simp at h
  | none =>
    simp only [h34] at h
    cases hu : isNot1 [32, 62] i with
    | some p2 =>
      obtain ⟨s2, r4⟩ := p2
      simp only [hu] at h
      injection h with ha hb
      exact ⟨_, hb.symm⟩
    | none => simp only [hu] at h; simp at h

theorem delimitedField_val (p : List Nat → PResult Data) (i r : List Nat) (d : Data)
    (h : delimitedField p i = PResult.ok r d) : ∃ j r2, p j = PResult.ok r2 d := by
  unfold delimitedField at h
  cases h60 : tagP [60] i with
  | none => simp only [h60] at h; simp at h
  | some r1 =>
    simp only [h60] at h
    cases hp : p (multispace0 r1) with
    | err => simp only [hp] at h; simp at h
    | panic => simp only [hp] at h; simp at h
    | ok r2 d2 =>
      simp only [hp] at h
      cases h62 : tagP [62] (multispace0 r2) with
      | none => simp only [h62] at h; simp at h
      | some r3 =>
        simp only [h62] at h
        injection h with ha hb
        exact ⟨multispace0 r1, r2, by rw [hp, hb]⟩

theorem parse_delimited_null_val (i r : List Nat) (d : Data)
    (h : parse_delimited_null i = PResult.ok r d) : d = Data.Null := by
  obtain ⟨j, r2, hj⟩ := delimitedField_val parse_null i r d h
  exact parse_null_val j r2 d hj

theorem parse_for_type_val (t : DataType) (i r : List Nat) (d : Data)
    (h : parse_for_type t i = PResult.ok r d) : cellOk d t := by
  cases t with
  | String =>
    obtain ⟨j, r2, hj⟩ := delimitedField_val parse_string i r d h
    obtain ⟨s, rfl⟩ := parse_string_val j r2 d hj
    exact Or.inr rfl
  | Float =>
    obtain ⟨j, r2, hj⟩ := delimitedField_val parse_float i r d h
    obtain ⟨q, rfl⟩ := parse_float_val j r2 d hj
    exact Or.inr rfl
  | Int =>
    obtain ⟨j, r2, hj⟩ := delimitedField_val parse_int i r d h
    obtain ⟨n, rfl⟩ := parse_int_val j r2 d hj
    exact Or.inr rfl
  | Bool =>
    obtain ⟨j, r2, hj⟩ := delimitedField_val parse_bool i r d h
    obtain ⟨b, rfl⟩ := parse_bool_val j r2 d hj
    exact Or.inr rfl

theorem plws_go_ok :
    ∀ (ts : List DataType) (i : List Nat) (acc ds : List Data),
      plws_go ts i acc = RowResult.row ds →
      ∃ tail, ds = acc ++ tail ∧ List.Forall₂ cellOk tail ts := by
  intro ts
  induction ts with
  | nil =>
    intro i acc ds h
    injection h with h1
    exact ⟨[], by simp [h1], List.Forall₂.nil⟩
  | cons t ts ih =>
    intro i acc ds h
    simp only [plws_go] at h
    split at h
    · obtain ⟨tail, htl, hfa⟩ := ih _ _ _ h
      exact ⟨Data.Null :: tail, by simp [htl], List.Forall₂.cons (Or.inl rfl) hfa⟩
    · cases hn : parse_delimited_null (multispace0 i) with
      | ok r d2 =>
        simp only [hn] at h
        obtain ⟨tail, htl, hfa⟩ := ih _ _ _ h
        have hd2 := parse_delimited_null_val _ _ _ hn
        exact ⟨d2 :: tail, by simp [htl], List.Forall₂.cons (Or.inl hd2) hfa⟩
      | panic => simp only [hn] at h; simp at h
      | err =>
        simp only [hn] at h
        cases hf : parse_for_type t (multispace0 i) with
        | ok r d2 =>
          simp only [hf] at h
          obtain ⟨tail, htl, hfa⟩ := ih _ _ _ h
          exact ⟨d2 :: tail, by simp [htl],
            List.Forall₂.cons (parse_for_type_val t _ _ _ hf) hfa⟩
        | panic => simp only [hf] at h; simp at h
        | err => simp only [hf] at h; simp at h

theorem plws_row_ok (i : List Nat) (schema : List DataType) (ds : List Data)
    (h : parse_line_with_schema i schema = RowResult.row ds) :
    List.Forall₂ cellOk ds schema := by
  unfold parse_line_with_schema at h
  split at h
  · simp at h
  · obtain ⟨tail, htl, hfa⟩ := plws_go_ok schema i [] ds h
    simpa [htl] using hfa

theorem pushCell_ok (d : Data) (t : DataType) (c : Column)
    (hck : cellOk d t) (htag : colTag c = t) :
    ∃ c2, pushCell d c = some c2 ∧ colTag c2 = t ∧ colLen c2 = colLen c + 1 := by
  rcases hck with rfl | hdt
  · cases c <;>
      exact ⟨_, rfl, by simpa [colTag] using htag, by simp [colLen]⟩
  · subst htag
    cases d <;> cases c <;> simp_all [dataTag, colTag, pushCell, colLen]

theorem pushRow_ok :
    ∀ (schema : List DataType) (ds : List Data) (cs : List Column) (n : Nat),
      List.Forall₂ cellOk ds schema → ColsOk schema n cs →
      ∃ cs2, pushRow ds cs = some cs2 ∧ ColsOk schema (n + 1) cs2 := by
  intro schema
  induction schema with
  | nil =>
    intro ds cs n hfa hcols
    cases hfa
    cases hcols
    exact ⟨[], rfl, List.Forall₂.nil⟩
  | cons t ts ih =>
    intro ds cs n hfa hcols
    cases hfa with
    | cons hd htl =>
      cases hcols with
      | cons hc hcs =>
        obtain ⟨c2, hpc, htag2, hlen2⟩ := pushCell_ok _ _ _ hd hc.1
        obtain ⟨cs2, hpr, hcols2⟩ := ih _ _ n htl hcs
        refine ⟨c2 :: cs2, ?_, List.Forall₂.cons ⟨htag2, by rw [hlen2, hc.2]⟩ hcols2⟩
        simp only [pushRow, hpc, hpr]

theorem chunkLoop_ok (schema : List DataType) (file : List Nat) :
    ∀ (fuel pos soFar len : Nat) (acc : List Column) (n : Nat) (cs : List Column),
      ColsOk schema n acc →
      chunkLoop schema file fuel pos soFar len acc = some cs →
      ∃ m, ColsOk schema m cs := by
  intro fuel
  induction fuel with
  | zero =>
    intro pos soFar len acc n cs _ h
    simp [chunkLoop] at h
  | succ fuel ih =>
    intro pos soFar len acc n cs hacc h
    simp only [chunkLoop] at h
    split at h
    · exact ⟨n, (Option.some.inj h) ▸ hacc⟩
    · cases hp : parse_line_with_schema (lineAt file pos) schema with
      | panic => simp only [hp] at h; simp at h
      | reject =>
        simp only [hp] at h
        exact ih _ _ _ _ n cs hacc h
      | row ds =>
        simp only [hp] at h
        obtain ⟨cs2, hps, hcols2⟩ :=
          pushRow_ok schema ds acc n (plws_row_ok _ _ _ hp) hacc
        simp only [hps] at h
        exact ih _ _ _ _ (n + 1) cs hcols2 h

theorem read_chunk_ok (schema : List DataType) (file : List Nat) (frm len : Nat)
    (cs : List Column) (h : read_chunk schema file frm len = some cs) :
    ∃ m, ColsOk schema m cs := by
  unfold read_chunk at h
  exact chunkLoop_ok schema file _ _ _ _ _ 0 cs (init_columnar_ok schema) h

theorem appendCol_ok (a b : Column) (t : DataType) (n m : Nat)
    (ha : colTag a = t) (hb : colTag b = t) (hla : colLen a = n) (hlb : colLen b = m) :
    ∃ c, appendCol a b = some c ∧ colTag c = t ∧ colLen c = n + m := by
  subst ha
  cases a <;> cases b <;> simp_all [colTag, colLen, appendCol]

theorem mergeCols_ok :
    ∀ (schema : List DataType) (a b : List Column) (n m : Nat),
      ColsOk schema n a → ColsOk schema m b →
      ∃ c, mergeCols a b = some c ∧ ColsOk schema (n + m) c := by
  intro schema
  induction schema with
  | nil =>
    intro a b n m ha hb
    cases ha
    cases hb
    exact ⟨[], rfl, List.Forall₂.nil⟩
  | cons t ts ih =>
    intro a b n m ha hb
    cases ha with
    | cons hc1 ha' =>
      cases hb with
      | cons hc2 hb' =>
        obtain ⟨c, hac, htag, hlen⟩ :=
          appendCol_ok _ _ t n m hc1.1 hc2.1 hc1.2 hc2.2
        obtain ⟨rest, hmc, hcols⟩ := ih _ _ n m ha' hb'
        refine ⟨c :: rest, ?_, List.Forall₂.cons ⟨htag, hlen⟩ hcols⟩
        simp only [mergeCols, hac, hmc]

theorem mergeAll_ok :
    ∀ (chunks : List (Option (List Column))) (schema : List DataType)
      (acc : List Column) (n : Nat) (cs : List Column),
      ColsOk schema n acc →
      (∀ x ∈ chunks, ∀ y, x = some y → ∃ m, ColsOk schema m y) →
      mergeAll acc chunks = some cs → ∃ m, ColsOk schema m cs := by
  intro chunks
  induction chunks with
  | nil =>
    intro schema acc n cs hacc _ h
    exact ⟨n, (Option.some.inj h) ▸ hacc⟩
  | cons c rest ih =>
    intro schema acc n cs hacc hch h
    simp only [mergeAll] at h
    cases hc : c with
    | none => simp only [hc] at h; simp at h
    | some x =>
      simp only [hc] at h
      obtain ⟨m, hx⟩ := hch c (by simp) x hc
      obtain ⟨acc2, hmc, hcols⟩ := mergeCols_ok schema acc x n m hacc hx
      simp only [hmc] at h
      exact ih schema acc2 (n + m) cs hcols (fun z hz => hch z (by simp [hz])) h

theorem from_file_ok (file : List Nat) (schema : List DataType)
    (frm len n : Nat) (cs : List Column)
    (h : from_file file schema frm len n = some cs) : ∃ m, ColsOk schema m cs := by
  unfold from_file at h
  refine mergeAll_ok _ schema _ 0 cs (init_columnar_ok schema) ?_ h
  intro x hx y hxy
  obtain ⟨w, hw, rfl⟩ := List.mem_map.mp hx
  exact read_chunk_ok schema file w.1 w.2 y hxy

/-- A right-hand member of a `Forall₂` pair is related to some left-hand
member. -/
theorem forall2_mem_right {α β : Type} {R : α → β → Prop} :
    ∀ {as : List α} {bs : List β}, List.Forall₂ R as bs → ∀ b ∈ bs, ∃ a, R a b := by
  intro as bs h
  induction h with
  | nil => simp
  | cons h1 _ ih =>
    intro b hb
    rcases List.mem_cons.mp hb with rfl | hb'
    · exact ⟨_, h1⟩
    · exact ih b hb'

/-- C9: every table `from_file` (and `read_chunk`) produces has one column
per schema entry, all columns of equal length, and column `c` of the
variant `Schema[c]` mandates — so only values of the inferred type (or the
missing sentinel) are stored in it. -/
theorem c9_table_invariants :
    (∀ file schema frm len n cols,
      from_file file schema frm len n = some cols →
      cols.length = schema.length ∧
      (∃ m, ∀ c ∈ cols, colLen c = m) ∧
      List.Forall₂ (fun t c => colTag c = t) schema cols) ∧
    (∀ file schema frm len cols,
      read_chunk schema file frm len = some cols →
      cols.length = schema.length ∧
      (∃ m, ∀ c ∈ cols, colLen c = m) ∧
      List.Forall₂ (fun t c => colTag c = t) schema cols) := by
  have hmain : ∀ (schema : List DataType) (m : Nat) (cols : List Column),
      ColsOk schema m cols →
      cols.length = schema.length ∧
      (∃ m2, ∀ c ∈ cols, colLen c = m2) ∧
      List.Forall₂ (fun t c => colTag c = t) schema cols := by
    intro schema m cols hc
    refine ⟨hc.length_eq.symm, ⟨m, ?_⟩, hc.imp (fun a b h => h.1)⟩
    intro c hcc
    obtain ⟨t, ht⟩ := forall2_mem_right hc c hcc
    exact ht.2
  constructor
  · intro file schema frm len n cols h
    obtain ⟨m, hc⟩ := from_file_ok file schema frm len n cols h
    exact hmain schema m cols hc
  · intro file schema frm len cols h
    obtain ⟨m, hc⟩ := read_chunk_ok schema file frm len cols h
    exact hmain schema m cols hc

/-- Witness for C9 at a concrete run of `from_file` and `read_chunk`. -/
theorem c9_table_invariants_witness :
    ([Column.Bool [some true]].length = [DataType.Bool].length ∧
      (∃ m, ∀ c ∈ [Column.Bool [some true]], colLen c = m) ∧
      List.Forall₂ (fun t c => colTag c = t) [DataType.Bool] [Column.Bool [some true]]) ∧
    ([Column.Bool [some true]].length = [DataType.Bool].length ∧
      (∃ m, ∀ c ∈ [Column.Bool [some true]], colLen c = m) ∧
      List.Forall₂ (fun t c => colTag c = t) [DataType.Bool] [Column.Bool [some true]]) :=
  ⟨c9_table_invariants.1 file4 [DataType.Bool] 0 USIZE_MAX 2 [Column.Bool [some true]]
      (by decide),
   c9_table_invariants.2 file4 [DataType.Bool] 0 USIZE_MAX [Column.Bool [some true]]
      (by decide)⟩
